import Mathlib

/-!
Verification of the Vidown download-orchestration engine against its
natural-language specification.

The definitions below are shallow embeddings of the source files:
  - the extension queue manager (service_worker.js: enqueueJob, processQueue,
    startJob, handleJobError, completeJob, cancelJob, fmtPercent,
    updateSpeedAndEta),
  - the Go native worker (internal/job: Manager.Start, Manager.Cancel,
    Job.run, Job.sendProgress),
  - the Node HLS downloader (hls-downloader.js: downloadHLS,
    concatenateSegments),
  - the framed control protocol (internal/ipc/native.go: Send, ReadMsg).
JavaScript and Go floating-point numbers are embedded as rationals;
timestamps are rationals; machine integers as Int/Nat (all byte counts in
the sources stay far below 2^53, where float and exact arithmetic agree).
-/

namespace Vidown

/-! ## Control-protocol framing (internal/ipc/native.go) -/

/-- One byte of the 4-byte little-endian length prefix written by Send:
byte k of the uint32 value n. -/
def u32le (n : Nat) : List Nat :=
  [n % 256, n / 256 % 256, n / 256 ^ 2 % 256, n / 256 ^ 3 % 256]

/-- Reassemble a uint32 from its four little-endian bytes, as
binary.Read with binary.LittleEndian does in ReadMsg. -/
def readU32le (b0 b1 b2 b3 : Nat) : Nat :=
  b0 + 256 * (b1 + 256 * (b2 + 256 * b3))

/-- ipc.Send: a 4-byte little-endian length prefix followed by the
marshalled JSON payload bytes. -/
def sendFrame (payload : List Nat) : List Nat :=
  u32le payload.length ++ payload

/-- ipc.ReadMsg: read the 4-byte length prefix, then exactly that many
payload bytes (io.ReadFull); fails if the stream is too short.  Returns
the payload together with the rest of the stream. -/
def readMsgFrame : List Nat → Option (List Nat × List Nat)
  | b0 :: b1 :: b2 :: b3 :: rest =>
      let len := readU32le b0 b1 b2 b3
      if rest.length < len then none
      else some (rest.take len, rest.drop len)
  | _ => none

/-! ## Transport routing (service_worker.js startJob, queue-manager variant) -/

/-- ConvertOpts as carried in the download message (container, vcodec,
acodec). -/
structure ConvertOpts where
  container : String
  vcodec : String
  acodec : String
deriving DecidableEq, Repr

/-- The four values produced by detectMode in service_worker.js. -/
inductive DLMode
  | http
  | hls
  | dash
  | blob
deriving DecidableEq, Repr

/-- The two transports startJob can hand a job to. -/
inductive Transport
  | chromeDownloads
  | nativeApp
deriving DecidableEq, Repr

/-- JavaScript truthiness of an optional string property: absent and the
empty string are falsy, any other string is truthy. -/
def jsTruthy : Option String → Bool
  | none => false
  | some s => s != ""

/-- The fields of a queued job that startJob consults to pick a
transport. -/
structure RouteJob where
  mode : DLMode
  headers : List (String × String)
  convert : Option ConvertOpts
deriving DecidableEq, Repr

/-- startJob routing (service_worker.js queue-manager variant, lines
103-115): mode http with a falsy headers.Cookie and a null convert spec
goes to chrome.downloads; everything else goes to the native companion. -/
def chooseTransport (j : RouteJob) : Transport :=
  if j.mode == DLMode.http && !(jsTruthy (j.headers.lookup "Cookie")) && j.convert.isNone
  then Transport.chromeDownloads
  else Transport.nativeApp

/-! ## Retry and backoff (service_worker.js handleJobError) -/

/-- The backoff schedule of handleJobError:
min(1000 * 2 ^ retryCount, 30000) milliseconds. -/
def backoffDelay (retryCount : Nat) : Nat :=
  min (1000 * 2 ^ retryCount) 30000

/-- Outcome of one handleJobError invocation: either schedule a retry
after a backoff delay, or give up. -/
inductive ErrOutcome
  | retry (delayMs : Nat)
  | fatal
deriving DecidableEq, Repr

/-- The branch logic of handleJobError: increment retries first; if the
incremented count is still below maxRetries, move to retrying and
schedule re-queueing after the backoff delay, otherwise move to error. -/
def handleJobErrorStep (retries maxRetries : Nat) : Nat × ErrOutcome :=
  let r := retries + 1
  if r < maxRetries then (r, ErrOutcome.retry (backoffDelay r))
  else (r, ErrOutcome.fatal)

/-- Delays of the successive retrying-then-requeued cycles of a job whose
every attempt fails, starting from the given retry counter; the fuel
argument only bounds the recursion and is set to maxRetries by
retryDelays, enough to reach the fatal branch. -/
def failureTrace (retries maxRetries : Nat) : Nat → List Nat
  | 0 => []
  | fuel + 1 =>
      match handleJobErrorStep retries maxRetries with
      | (r, ErrOutcome.retry d) => d :: failureTrace r maxRetries fuel
      | (_, ErrOutcome.fatal) => []

/-- Backoff delays observed by a fresh job (retries = 0) that fails on
every attempt until handleJobError gives up. -/
def retryDelays (maxRetries : Nat) : List Nat :=
  failureTrace 0 maxRetries maxRetries

/-- Number of retrying-then-requeued cycles such a job goes through
before reaching the error state. -/
def retryCycles (maxRetries : Nat) : Nat :=
  (retryDelays maxRetries).length

/-! ## Progress estimator (service_worker.js fmtPercent, updateSpeedAndEta) -/

/-- fmtPercent: null when the total is absent, zero or non-positive,
otherwise Math.max(0, Math.min(100, Math.floor((bytes / total) * 100))).
JavaScript numbers are embedded as exact rationals. -/
def fmtPercent (bytes : ℚ) (total : Option ℚ) : Option Int :=
  match total with
  | none => none
  | some t => if t ≤ 0 then none else some (max 0 (min 100 ⌊bytes / t * 100⌋))

/-- The job snapshot fields consulted by updateSpeedAndEta. -/
structure SWJob where
  bytesReceived : ℚ
  lastTick : Option ℚ
  speedBytesPerSec : Option ℚ
  expectedTotalBytes : Option ℚ
  etaSeconds : Option Int
deriving DecidableEq, Repr

/-- The expression job.lastTick or-else t of updateSpeedAndEta: an absent
or zero (falsy) lastTick falls back to the current time t. -/
def jsLastTick (job : SWJob) (t : ℚ) : ℚ :=
  match job.lastTick with
  | none => t
  | some x => if x = 0 then t else x

/-- The inst local of updateSpeedAndEta: dBytes / dt when dt is positive,
else 0; then clamped to 0 when negative (the Number.isFinite guard cannot
fire over exact rationals since dt is positive in the division branch). -/
def jsInstant (job : SWJob) (b t : ℚ) : ℚ :=
  let dt := (t - jsLastTick job t) / 1000
  let dBytes := b - job.bytesReceived
  let inst0 := if 0 < dt then dBytes / dt else 0
  if inst0 < 0 then 0 else inst0

/-- The speedBytesPerSec update of updateSpeedAndEta with alpha = 0.25: a
null EMA is seeded with the instantaneous value, otherwise
alpha * inst + (1 - alpha) * ema. -/
def jsEmaNext (job : SWJob) (b t : ℚ) : ℚ :=
  match job.speedBytesPerSec with
  | none => jsInstant job b t
  | some s => 0.25 * jsInstant job b t + (1 - 0.25) * s

/-- The remaining local of updateSpeedAndEta: Math.max(0, total - bytes)
when (expectedTotalBytes or-else 0) is positive, else null. -/
def jsRemaining (job : SWJob) (b : ℚ) : Option ℚ :=
  if 0 < job.expectedTotalBytes.getD 0 then some (max 0 (job.expectedTotalBytes.getD 0 - b))
  else none

/-- The etaSeconds update of updateSpeedAndEta: Math.ceil(remaining / ema)
when remaining is non-null and the just-updated EMA is positive, else
null. -/
def jsEta (job : SWJob) (b : ℚ) (ema : ℚ) : Option Int :=
  match jsRemaining job b with
  | some r => if 0 < ema then some ⌈r / ema⌉ else none
  | none => none

/-- updateSpeedAndEta: writes the new EMA, the derived etaSeconds (using
the new EMA) and the new lastTick into the job record; bytesReceived is
not written here (the caller assigns it). -/
def updateSpeedAndEta (job : SWJob) (b t : ℚ) : SWJob :=
  { job with
    speedBytesPerSec := some (jsEmaNext job b t),
    etaSeconds := jsEta job b (jsEmaNext job b t),
    lastTick := some t }

/-! ## Go worker progress (internal/job sendProgress) -/

/-- Rounding toward zero: the conversion Go performs in an
int(float64-expression) cast. -/
def ratTrunc (q : ℚ) : Int := if q < 0 then -⌊-q⌋ else ⌊q⌋

/-- The per-job progress snapshot held by the Go worker. -/
structure GoJob where
  speedEMA : ℚ
  lastBytes : Int
  lastTick : ℚ
deriving DecidableEq, Repr

/-- The fields of the progress event emitted by sendProgress. -/
structure ProgressMsg where
  bytesReceived : Int
  totalBytes : Int
  speedBps : Int
  etaSec : Int
  percent : Int
deriving DecidableEq, Repr

/-- The instantaneous speed of sendProgress: dBytes clamped to 0 when
negative, divided by dt seconds. -/
def goInstSpeed (gj : GoJob) (gb : Int) (now : ℚ) : ℚ :=
  let dt := now - gj.lastTick
  let dBytes0 := gb - gj.lastBytes
  let dBytes := if dBytes0 < 0 then 0 else dBytes0
  (dBytes : ℚ) / dt

/-- The speedEMA update of sendProgress: a zero EMA is seeded with the
instantaneous speed, otherwise 0.25 * inst + 0.75 * ema. -/
def goEmaNext (gj : GoJob) (gb : Int) (now : ℚ) : ℚ :=
  if gj.speedEMA = 0 then goInstSpeed gj gb now
  else 0.25 * goInstSpeed gj gb now + 0.75 * gj.speedEMA

/-- The remaining byte count of sendProgress: totalBytes - bytesReceived,
clamped to 0 when negative. -/
def goRemaining (gb gt : Int) : Int :=
  let r0 := gt - gb
  if r0 < 0 then 0 else r0

/-- The etaSec field of sendProgress: int(remaining / speedEMA) when
totalBytes and the updated EMA are positive, and the zero value
otherwise (etaSec is declared as int and sent unconditionally). -/
def goEtaSec (ema : ℚ) (gb gt : Int) : Int :=
  if 0 < gt then (if 0 < ema then ratTrunc ((goRemaining gb gt : ℚ) / ema) else 0) else 0

/-- The percent field of sendProgress:
int(bytesReceived * 100.0 / totalBytes) capped above at 100 when
totalBytes is positive, and the zero value otherwise. -/
def goPercent (gb gt : Int) : Int :=
  if 0 < gt then
    let p0 := ratTrunc ((gb : ℚ) * 100 / (gt : ℚ))
    if 100 < p0 then 100 else p0
  else 0

/-- sendProgress: returns unchanged state and no event when less than
half a second elapsed since lastTick; otherwise updates the EMA and the
snapshot and emits a progress message whose speedBps is int64(speedEMA). -/
def sendProgress (gj : GoJob) (gb gt : Int) (now : ℚ) : GoJob × Option ProgressMsg :=
  if now - gj.lastTick < 0.5 then (gj, none)
  else
    (⟨goEmaNext gj gb now, gb, now⟩,
      some ⟨gb, gt, ratTrunc (goEmaNext gj gb now), goEtaSec (goEmaNext gj gb now) gb gt,
        goPercent gb gt⟩)

/-! ## Spec-side progress formulas (for refinement comparison) -/

/-- Modelled from the claim wording: percent equals
floor(100 * bytesReceived / expectedTotalBytes) clamped to the interval
0..100 when the total is known and positive, and is null otherwise. -/
def specPercent (bytes : ℚ) (total : Option ℚ) : Option Int :=
  match total with
  | some tot => if 0 < tot then some (max 0 (min 100 ⌊100 * bytes / tot⌋)) else none
  | none => none

/-- Modelled from the claim wording: etaSeconds equals
ceil((total - bytes) / speed) with the remaining count clamped at 0, when
the total is known and positive and the speed is positive; null
otherwise. -/
def specEta (total : Option ℚ) (bytes speed : ℚ) : Option Int :=
  match total with
  | some tot => if 0 < tot ∧ 0 < speed then some ⌈max 0 (tot - bytes) / speed⌉ else none
  | none => none

/-- Modelled from the claim wording: instantaneous speed is delta-bytes
over delta-time, treated as 0 when delta-time is non-positive or
delta-bytes negative. -/
def specInstant (dBytes dt : ℚ) : ℚ :=
  if dt ≤ 0 ∨ dBytes < 0 then 0 else dBytes / dt

/-- Modelled from the claim wording: an unset EMA takes the first
instantaneous value as seed; an existing EMA is blended as
0.25 * inst + (1 - 0.25) * ema. -/
def specEmaNext (prior : Option ℚ) (inst : ℚ) : ℚ :=
  match prior with
  | none => inst
  | some s => 0.25 * inst + (1 - 0.25) * s

/-! ## Queue manager state machine (service_worker.js) -/

/-- The job states used by the service worker. -/
inductive JState
  | queued
  | active
  | paused
  | retrying
  | complete
  | error
  | cancelled
deriving DecidableEq, Repr

/-- The lifecycle-relevant fields of a queue-manager job record. -/
structure QJob where
  id : Nat
  state : JState
  retries : Nat
  maxRetries : Nat
  lastError : Option String
deriving DecidableEq, Repr

/-- The fixed global concurrency limit of the queue manager. -/
def MAX_CONCURRENT : Nat := 2

/-- The queue-manager shared state: the pending jobQueue array and the
activeJobs map (modelled as a list keyed by the unique job ids).  The
terminal list is ghost state recording the snapshot of each job at the
moment it is dropped from the manager in a terminal state, so that
terminal states stay observable. -/
structure QueueState where
  jobQueue : List QJob
  activeJobs : List QJob
  terminal : List QJob
deriving DecidableEq, Repr

/-- The empty manager state at service-worker start. -/
def initQueue : QueueState := ⟨[], [], []⟩

/-- startJob: mark the job active (it is then inserted into activeJobs by
the caller, processQueue). -/
def startJob (j : QJob) : QJob := { j with state := JState.active }

/-- The while loop of processQueue: as long as activeJobs.size is below
MAX_CONCURRENT and the jobQueue is non-empty, shift the first pending job
and start it. -/
def processQueueAux : List QJob → List QJob → List QJob × List QJob
  | [], act => ([], act)
  | j :: rest, act =>
      if act.length < MAX_CONCURRENT then processQueueAux rest (act ++ [startJob j])
      else (j :: rest, act)

/-- processQueue on the whole manager state. -/
def processQueue (s : QueueState) : QueueState :=
  let p := processQueueAux s.jobQueue s.activeJobs
  { s with jobQueue := p.1, activeJobs := p.2 }

/-- enqueueJob: push a fresh job (state queued, retries 0) at the back of
the jobQueue, then run processQueue. -/
def enqueueJob (s : QueueState) (id maxRetries : Nat) : QueueState :=
  processQueue { s with jobQueue := s.jobQueue ++ [⟨id, JState.queued, 0, maxRetries, none⟩] }

/-- completeJob: mark complete, delete from activeJobs, advance the
queue.  Messages for ids that are not active are ignored by the callers
(handleNativeMessage and the downloads listener look the job up first). -/
def completeJob (s : QueueState) (id : Nat) : QueueState :=
  match s.activeJobs.find? (fun j => j.id == id) with
  | none => s
  | some j =>
      processQueue { s with
        activeJobs := s.activeJobs.filter (fun x => x.id != id),
        terminal := s.terminal ++ [{ j with state := JState.complete }] }

/-- handleJobError: bump retries; below maxRetries the job turns retrying
and stays in activeJobs until its backoff timer fires; otherwise it turns
error, is deleted from activeJobs and the queue advances. -/
def handleJobError (s : QueueState) (id : Nat) (msg : String) : QueueState :=
  match s.activeJobs.find? (fun j => j.id == id) with
  | none => s
  | some j =>
      match handleJobErrorStep j.retries j.maxRetries with
      | (r, ErrOutcome.retry _) =>
          { s with activeJobs := s.activeJobs.map (fun x =>
              if x.id == id then { x with state := JState.retrying, retries := r, lastError := some msg }
              else x) }
      | (r, ErrOutcome.fatal) =>
          processQueue { s with
            activeJobs := s.activeJobs.filter (fun x => x.id != id),
            terminal := s.terminal ++
              [{ j with state := JState.error, retries := r, lastError := some msg }] }

/-- The body of the setTimeout scheduled by the retry branch of
handleJobError: delete the job from activeJobs, unshift it at the front
of the jobQueue, and advance the queue.  The timer only exists for a job
that the retry branch left in activeJobs in the retrying state, which the
guard reflects. -/
def retryRequeue (s : QueueState) (id : Nat) : QueueState :=
  match s.activeJobs.find? (fun j => j.id == id && j.state == JState.retrying) with
  | none => s
  | some j =>
      processQueue { s with
        activeJobs := s.activeJobs.filter (fun x => x.id != id),
        jobQueue := j :: s.jobQueue }

/-- cancelJob: an active job is marked cancelled, deleted from activeJobs
and the queue advances; otherwise a pending job is spliced out of the
jobQueue and marked cancelled. -/
def cancelJob (s : QueueState) (id : Nat) : QueueState :=
  match s.activeJobs.find? (fun j => j.id == id) with
  | some j =>
      processQueue { s with
        activeJobs := s.activeJobs.filter (fun x => x.id != id),
        terminal := s.terminal ++ [{ j with state := JState.cancelled }] }
  | none =>
      match s.jobQueue.find? (fun j => j.id == id) with
      | some j =>
          { s with
            jobQueue := s.jobQueue.filter (fun x => x.id != id),
            terminal := s.terminal ++ [{ j with state := JState.cancelled }] }
      | none => s

/-- The operations handled by the queue manager. -/
inductive QEvent
  | enqueue (id maxRetries : Nat)
  | complete (id : Nat)
  | fail (id : Nat) (msg : String)
  | retryFire (id : Nat)
  | cancel (id : Nat)

/-- Dispatch one operation. -/
def applyEvent (s : QueueState) : QEvent → QueueState
  | QEvent.enqueue id m => enqueueJob s id m
  | QEvent.complete id => completeJob s id
  | QEvent.fail id msg => handleJobError s id msg
  | QEvent.retryFire id => retryRequeue s id
  | QEvent.cancel id => cancelJob s id

/-- Run a sequence of operations from the initial manager state. -/
def runEvents (es : List QEvent) : QueueState :=
  es.foldl applyEvent initQueue

/-- The inductive invariant of the queue manager: the activeJobs map
never holds more than MAX_CONCURRENT jobs, and no job waiting in the
jobQueue or recorded as terminal is in the active state. -/
def QInv (s : QueueState) : Prop :=
  s.activeJobs.length ≤ MAX_CONCURRENT ∧
    (∀ j ∈ s.jobQueue, j.state ≠ JState.active) ∧
    (∀ j ∈ s.terminal, j.state ≠ JState.active)

/-! ## Worker job lifecycle events (internal/job Manager and Job.run) -/

/-- The events the Go worker emits about one job (progress events are
irrelevant to terminal-event counting and omitted). -/
inductive WEvent
  | jobStarted (id : Nat)
  | canceled (id : Nat)
  | done (id : Nat)
  | errorEvent (id : Nat)
deriving DecidableEq, Repr

/-- The atomic happenings of the worker: Manager.Start registers the job
and launches its run goroutine; Manager.Cancel cancels its context; the
run goroutine finishes, successfully or not (a context cancelled while
the download is in flight kills the ffmpeg child, so its run finishes
with ok = false). -/
inductive WAction
  | start (id : Nat)
  | cancel (id : Nat)
  | finish (id : Nat) (ok : Bool)
deriving DecidableEq, Repr

/-- One worker happening over the Manager job map (a list of registered
ids): Start inserts the id and emits job-started; Cancel deletes a
registered id and emits canceled, and is a no-op otherwise; a finished
run emits done on success and error on failure, without consulting the
map, exactly as Job.run does. -/
def wStep (jobs : List Nat) : WAction → List Nat × List WEvent
  | WAction.start id => (jobs ++ [id], [WEvent.jobStarted id])
  | WAction.cancel id =>
      if jobs.contains id then (jobs.filter (fun x => x != id), [WEvent.canceled id])
      else (jobs, [])
  | WAction.finish id ok =>
      (jobs, [if ok then WEvent.done id else WEvent.errorEvent id])

/-- Run a sequence of worker happenings, collecting emitted events. -/
def wRunAux (jobs : List Nat) : List WAction → List WEvent
  | [] => []
  | a :: rest => (wStep jobs a).2 ++ wRunAux (wStep jobs a).1 rest

/-- Run from the empty Manager job map. -/
def wRun (as : List WAction) : List WEvent := wRunAux [] as

/-- Whether an event is a terminal event (done, error, canceled) for the
given job id. -/
def isTerminalFor (id : Nat) : WEvent → Bool
  | WEvent.canceled i => i == id
  | WEvent.done i => i == id
  | WEvent.errorEvent i => i == id
  | WEvent.jobStarted _ => false

/-- Number of terminal events for the given job id in an event list. -/
def terminalCount (id : Nat) (evs : List WEvent) : Nat :=
  (evs.filter (isTerminalFor id)).length

/-- Number of run-finishes of the given job id in an action list. -/
def finishCount (id : Nat) (as : List WAction) : Nat :=
  (as.filter (fun a => match a with
    | WAction.finish i _ => i == id
    | _ => false)).length

/-- Number of cancels of the given job id that hit a registered job (the
branch of Manager.Cancel that actually emits the canceled event). -/
def cancelHits (jobs : List Nat) (id : Nat) : List WAction → Nat
  | [] => 0
  | a :: rest =>
      (match a with
       | WAction.cancel i => if i == id && jobs.contains i then 1 else 0
       | _ => 0) + cancelHits (wStep jobs a).1 id rest

/-! ## HLS downloader effects (hls-downloader.js downloadHLS) -/

/-- The temporary artifacts of one downloadHLS invocation: whether the
per-job temp directory exists, which segment files exist in it (by
index; a failed downloadSegment has already created its file via
fs.createWriteStream), whether the ffmpeg concat list file exists, and
whether the concatenated output file was produced. -/
structure HlsFs where
  tmpDirMade : Bool
  segFiles : List Nat
  concatFile : Bool
  outputFile : Bool
deriving DecidableEq, Repr

/-- The filesystem state before downloadHLS runs. -/
def initialHlsFs : HlsFs := ⟨false, [], false, false⟩

/-- The environment of one downloadHLS run: the outcomes of the master
and media playlist fetches, the per-parsed-segment download outcomes,
and the ffmpeg concat exit code.  Variant selection only chooses which
media playlist URL is fetched and does not affect these effects. -/
structure HlsRun where
  masterFetch : Except String Unit
  mediaFetch : Except String Unit
  segOk : List Bool
  ffmpegExit : Nat
deriving Repr

/-- The sequential segment download loop of downloadHLS: each iteration
creates the segment file for index i, then either proceeds or rejects
(rejecting leaves every file created so far in place, there is no
try-finally around the loop). -/
def downloadSegLoop : List Bool → Nat → HlsFs → Except String Unit × HlsFs
  | [], _, fs => (Except.ok (), fs)
  | ok :: rest, i, fs =>
      let fs2 : HlsFs := { fs with segFiles := fs.segFiles ++ [i] }
      if ok then downloadSegLoop rest (i + 1) fs2
      else (Except.error "segment download failed", fs2)

/-- concatenateSegments: writes the concat list file, runs ffmpeg, and
unlinks the concat list file in the exit callback before checking the
exit code (so the list file is gone on both outcomes); a non-zero exit
rejects without touching the segment files. -/
def concatenateSegments (fs : HlsFs) (exitCode : Nat) : Except String Unit × HlsFs :=
  let fs1 : HlsFs := { fs with concatFile := true }
  let fs2 : HlsFs := { fs1 with concatFile := false }
  if exitCode = 0 then (Except.ok (), { fs2 with outputFile := true })
  else (Except.error "ffmpeg exited with nonzero code", fs2)

/-- downloadHLS: fetch the master playlist, fetch the chosen media
playlist, throw the ManifestEmpty error if it parses to zero segments
(before the temp directory is created), otherwise make the temp
directory, download every segment in order, concatenate, and only on
the success path unlink the segment files and remove the directory. -/
def downloadHLS (run : HlsRun) : Except String Unit × HlsFs :=
  match run.masterFetch with
  | Except.error e => (Except.error e, initialHlsFs)
  | Except.ok _ =>
    match run.mediaFetch with
    | Except.error e => (Except.error e, initialHlsFs)
    | Except.ok _ =>
      if run.segOk.length = 0 then
        (Except.error "No segments found in HLS stream", initialHlsFs)
      else
        let fs1 : HlsFs := { initialHlsFs with tmpDirMade := true }
        match downloadSegLoop run.segOk 0 fs1 with
        | (Except.error e, fs) => (Except.error e, fs)
        | (Except.ok _, fs) =>
          match concatenateSegments fs run.ffmpegExit with
          | (Except.error e, fs2) => (Except.error e, fs2)
          | (Except.ok _, fs2) =>
              (Except.ok (), { fs2 with segFiles := [], tmpDirMade := false })

/-! ## Go worker Job.run artifacts (internal/job Job.run) -/

/-- The temporary and final artifacts of one Go Job.run: the .part
download file, the .part.converted file, and the final output. -/
structure GoRunFiles where
  part : Bool
  converted : Bool
  final : Bool
deriving DecidableEq, Repr

/-- Whether Job.run enters its conversion step: a convert spec is present
and its container is not the copy marker. -/
def needsConvert : Option ConvertOpts → Bool
  | some c => c.container != "copy"
  | none => false

/-- The artifact and outcome trace of Job.run: a failed download removes
the .part file and reports error; a failed conversion removes the .part
and converted files and reports error; a successful conversion removes
the .part file; a failed atomic rename removes the remaining temp file
and reports error; success leaves only the final output.  The Bool is
true when the done event is sent and false when an error event is sent. -/
def goRunFiles (downloadOk : Bool) (convert : Option ConvertOpts) (convertOk renameOk : Bool) :
    GoRunFiles × Bool :=
  if !downloadOk then (⟨false, false, false⟩, false)
  else
    if needsConvert convert then
      if !convertOk then (⟨false, false, false⟩, false)
      else if renameOk then (⟨false, false, true⟩, true)
      else (⟨false, false, false⟩, false)
    else if renameOk then (⟨false, false, true⟩, true)
    else (⟨false, false, false⟩, false)

/-- Number of jobs currently in the active state, across all of the
manager's job records. -/
def activeStateCount (s : QueueState) : Nat :=
  ((s.activeJobs ++ s.jobQueue ++ s.terminal).filter (fun j => j.state == JState.active)).length

end Vidown

namespace Vidown

/-! ## Theorems: framing, routing, retry count -/

theorem readU32le_u32le (n : Nat) (h : n < 2 ^ 32) :
    readU32le (n % 256) (n / 256 % 256) (n / 256 ^ 2 % 256) (n / 256 ^ 3 % 256) = n := by
  unfold readU32le
  omega

/-- C9: de-framing after framing is the identity: for every payload (the
UTF-8 JSON bytes of a control-protocol message) of length below 2^32,
reading a frame from the framed bytes followed by any continuation of the
stream returns exactly the original payload and leaves exactly the
continuation, so the decoded JSON is the identical message object. -/
theorem frame_roundtrip (payload rest : List Nat) (h : payload.length < 2 ^ 32) :
    readMsgFrame (sendFrame payload ++ rest) = some (payload, rest) := by
  unfold sendFrame u32le
  simp only [List.cons_append, List.nil_append, readMsgFrame]
  rw [readU32le_u32le payload.length h]
  have hlen : ¬ (payload ++ rest).length < payload.length := by
    simp [List.length_append]
  simp only [hlen, if_false]
  rw [List.take_left, List.drop_left]

/-- Witness for C9 at a concrete three-byte payload. -/
theorem frame_roundtrip_witness :
    ([104, 105, 33] : List Nat).length < 2 ^ 32 ∧
      readMsgFrame (sendFrame [104, 105, 33] ++ [7, 7]) = some ([104, 105, 33], [7, 7]) :=
  ⟨by decide, frame_roundtrip [104, 105, 33] [7, 7] (by decide)⟩

/-- C10: the transport decision is the fixed deterministic rule of
startJob: chrome.downloads exactly for mode http with no (truthy) Cookie
request header and no conversion spec; every other job, that is hls, dash,
blob, or http carrying a Cookie header or a conversion spec, goes to the
native companion. -/
theorem chooseTransport_rule (j : RouteJob) :
    (chooseTransport j = Transport.chromeDownloads ↔
      j.mode = DLMode.http ∧ jsTruthy (j.headers.lookup "Cookie") = false ∧ j.convert = none) ∧
    (chooseTransport j = Transport.nativeApp ↔
      ¬(j.mode = DLMode.http ∧ jsTruthy (j.headers.lookup "Cookie") = false ∧ j.convert = none)) := by
  unfold chooseTransport
  constructor
  · constructor
    · intro hchrome
      by_cases hc : (j.mode == DLMode.http && !(jsTruthy (j.headers.lookup "Cookie")) && j.convert.isNone) = true
      · simp only [Bool.and_eq_true, beq_iff_eq, Bool.not_eq_true'] at hc
        refine ⟨hc.1.1, hc.1.2, ?_⟩
        rcases hc with ⟨-, hnone⟩
        cases hcv : j.convert with
        | none => rfl
        | some c => rw [hcv] at hnone; simp [Option.isNone] at hnone
      · rw [if_neg (by simpa using hc)] at hchrome
        cases hchrome
    · intro ⟨hm, hck, hcv⟩
      rw [if_pos]
      simp [hm, hck, hcv]
  · constructor
    · intro hnative hall
      rcases hall with ⟨hm, hck, hcv⟩
      rw [if_pos (by simp [hm, hck, hcv])] at hnative
      cases hnative
    · intro hneg
      by_cases hc : (j.mode == DLMode.http && !(jsTruthy (j.headers.lookup "Cookie")) && j.convert.isNone) = true
      · exfalso
        apply hneg
        simp only [Bool.and_eq_true, beq_iff_eq, Bool.not_eq_true'] at hc
        refine ⟨hc.1.1, hc.1.2, ?_⟩
        rcases hc with ⟨-, hnone⟩
        cases hcv : j.convert with
        | none => rfl
        | some c => rw [hcv] at hnone; simp [Option.isNone] at hnone
      · rw [if_neg (by simpa using hc)]

/-- C2 counterexample: with the default maxRetries = 3, a job that fails
on every attempt goes through exactly 2 retrying-then-requeued cycles,
not 3 as the claim states; the two backoff delays are 2000 ms and 4000 ms
(min(1000 * 2 ^ k, 30000) for retry counts k = 1, 2), and the third
failure is fatal. -/
theorem retryCycles_default_ne_three :
    retryCycles 3 = 2 ∧ retryDelays 3 = [2000, 4000] ∧
      handleJobErrorStep 2 3 = (3, ErrOutcome.fatal) ∧ (2 : Nat) ≠ 3 := by
  refine ⟨by decide, by decide, by decide, by decide⟩

theorem failureTrace_closed (fuel : Nat) : ∀ (r m : Nat), r + 1 ≤ m → m ≤ r + 1 + fuel →
    failureTrace r m fuel = (List.range (m - 1 - r)).map (fun k => backoffDelay (r + 1 + k)) := by
  induction fuel with
  | zero =>
      intro r m h1 h2
      have : m - 1 - r = 0 := by omega
      rw [this]
      rfl
  | succ fuel ih =>
      intro r m h1 h2
      unfold failureTrace handleJobErrorStep
      by_cases hlt : r + 1 < m
      · simp only [if_pos hlt]
        rw [ih (r + 1) m (by omega) (by omega)]
        have hm : m - 1 - r = (m - 1 - (r + 1)) + 1 := by omega
        rw [hm, List.range_succ_eq_map, List.map_cons, List.map_map]
        rw [show r + 1 + 0 = r + 1 by omega]
        congr 1
        apply List.map_congr_left
        intro k _
        simp only [Function.comp, Nat.succ_eq_add_one]
        congr 1
        omega
      · simp only [if_neg hlt]
        have : m - 1 - r = 0 := by omega
        rw [this]
        rfl

/-- C2 amended: for every positive maxRetries, a job that fails on every
attempt goes through exactly maxRetries - 1 retrying-then-requeued cycles
before reaching the error state, and the backoff before re-queueing after
the k-th failure (k = 1, 2, ...) is min(1000 * 2 ^ k, 30000) ms. -/
theorem retry_schedule (m : Nat) (h : 1 ≤ m) :
    retryCycles m = m - 1 ∧
      retryDelays m = (List.range (m - 1)).map (fun k => min (1000 * 2 ^ (k + 1)) 30000) := by
  have htr : retryDelays m = (List.range (m - 1 - 0)).map (fun k => backoffDelay (0 + 1 + k)) := by
    unfold retryDelays
    exact failureTrace_closed m 0 m (by omega) (by omega)
  constructor
  · unfold retryCycles
    rw [htr]
    simp
  · rw [htr]
    simp only [Nat.sub_zero]
    apply List.map_congr_left
    intro k _
    unfold backoffDelay
    congr 1
    ring_nf

/-- Witness for C2 amended at the default maxRetries = 3. -/
theorem retry_schedule_witness :
    1 ≤ 3 ∧ retryCycles 3 = 3 - 1 ∧
      retryDelays 3 = (List.range (3 - 1)).map (fun k => min (1000 * 2 ^ (k + 1)) 30000) :=
  ⟨by decide, (retry_schedule 3 (by decide)).1, (retry_schedule 3 (by decide)).2⟩

/-! ## Theorems: the concurrency bound (C1) -/

theorem processQueueAux_len : ∀ (q act : List QJob), act.length ≤ MAX_CONCURRENT →
    (processQueueAux q act).2.length ≤ MAX_CONCURRENT := by
  intro q
  induction q with
  | nil => intro act h; exact h
  | cons j rest ih =>
      intro act h
      unfold processQueueAux
      by_cases hlt : act.length < MAX_CONCURRENT
      · rw [if_pos hlt]
        exact ih _ (by simp only [List.length_append, List.length_cons, List.length_nil]; omega)
      · rw [if_neg hlt]
        exact h

theorem processQueueAux_queue_sub : ∀ (q act : List QJob) (j : QJob),
    j ∈ (processQueueAux q act).1 → j ∈ q := by
  intro q
  induction q with
  | nil => intro act j h; exact absurd h (by simp [processQueueAux])
  | cons a rest ih =>
      intro act j h
      unfold processQueueAux at h
      by_cases hlt : act.length < MAX_CONCURRENT
      · rw [if_pos hlt] at h
        exact List.mem_cons_of_mem a (ih _ j h)
      · rw [if_neg hlt] at h
        exact h

theorem processQueue_inv (s : QueueState) (h : QInv s) : QInv (processQueue s) := by
  obtain ⟨h1, h2, h3⟩ := h
  refine ⟨processQueueAux_len s.jobQueue s.activeJobs h1, ?_, h3⟩
  intro j hj
  exact h2 j (processQueueAux_queue_sub s.jobQueue s.activeJobs j hj)

theorem filter_length_le (p : QJob → Bool) (l : List QJob) : (l.filter p).length ≤ l.length :=
  List.length_filter_le p l

theorem applyEvent_inv (s : QueueState) (e : QEvent) (h : QInv s) : QInv (applyEvent s e) := by
  obtain ⟨h1, h2, h3⟩ := h
  cases e with
  | enqueue id m =>
      apply processQueue_inv
      refine ⟨h1, ?_, h3⟩
      intro j hj
      rcases List.mem_append.mp hj with hl | hr
      · exact h2 j hl
      · rcases List.mem_singleton.mp hr with rfl
        intro hc; cases hc
  | complete id =>
      simp only [applyEvent]
      unfold completeJob
      cases hf : s.activeJobs.find? (fun j => j.id == id) with
      | none => exact ⟨h1, h2, h3⟩
      | some j =>
          dsimp only
          apply processQueue_inv
          refine ⟨le_trans (filter_length_le _ _) h1, h2, ?_⟩
          intro x hx
          rcases List.mem_append.mp hx with hl | hr
          · exact h3 x hl
          · rcases List.mem_singleton.mp hr with rfl
            intro hc; cases hc
  | fail id msg =>
      simp only [applyEvent]
      unfold handleJobError
      cases hf : s.activeJobs.find? (fun j => j.id == id) with
      | none => exact ⟨h1, h2, h3⟩
      | some j =>
          dsimp only
          cases hstep : handleJobErrorStep j.retries j.maxRetries with
          | mk r out =>
              cases out with
              | retry d =>
                  dsimp only
                  refine ⟨?_, h2, h3⟩
                  simpa using h1
              | fatal =>
                  dsimp only
                  apply processQueue_inv
                  refine ⟨le_trans (filter_length_le _ _) h1, h2, ?_⟩
                  intro x hx
                  rcases List.mem_append.mp hx with hl | hr
                  · exact h3 x hl
                  · rcases List.mem_singleton.mp hr with rfl
                    intro hc; cases hc
  | retryFire id =>
      simp only [applyEvent]
      unfold retryRequeue
      cases hf : s.activeJobs.find? (fun j => j.id == id && j.state == JState.retrying) with
      | none => exact ⟨h1, h2, h3⟩
      | some j =>
          dsimp only
          apply processQueue_inv
          refine ⟨le_trans (filter_length_le _ _) h1, ?_, h3⟩
          intro x hx
          rcases List.mem_cons.mp hx with rfl | hl
          · have hp := List.find?_some hf
            simp only [Bool.and_eq_true, beq_iff_eq] at hp
            rw [hp.2]
            intro hc; cases hc
          · exact h2 x hl
  | cancel id =>
      simp only [applyEvent]
      unfold cancelJob
      cases hf : s.activeJobs.find? (fun j => j.id == id) with
      | some j =>
          dsimp only
          apply processQueue_inv
          refine ⟨le_trans (filter_length_le _ _) h1, h2, ?_⟩
          intro x hx
          rcases List.mem_append.mp hx with hl | hr
          · exact h3 x hl
          · rcases List.mem_singleton.mp hr with rfl
            intro hc; cases hc
      | none =>
          cases hq : s.jobQueue.find? (fun j => j.id == id) with
          | none => exact ⟨h1, h2, h3⟩
          | some j =>
              dsimp only
              refine ⟨h1, ?_, ?_⟩
              · intro x hx
                exact h2 x (List.mem_of_mem_filter hx)
              · intro x hx
                rcases List.mem_append.mp hx with hl | hr
                · exact h3 x hl
                · rcases List.mem_singleton.mp hr with rfl
                  intro hc; cases hc

theorem queue_inv_run (es : List QEvent) : QInv (runEvents es) := by
  unfold runEvents
  have hgen : ∀ s, QInv s → QInv (es.foldl applyEvent s) := by
    induction es with
    | nil => intro s hs; exact hs
    | cons e t ih =>
        intro s hs
        exact ih _ (applyEvent_inv s e hs)
  exact hgen initQueue ⟨by simp [initQueue, MAX_CONCURRENT], by simp [initQueue], by simp [initQueue]⟩

theorem filter_active_nil (l : List QJob) (h : ∀ j ∈ l, j.state ≠ JState.active) :
    l.filter (fun j => j.state == JState.active) = [] := by
  induction l with
  | nil => rfl
  | cons a t ih =>
      have ha : (a.state == JState.active) = false := by
        simp only [beq_eq_false_iff_ne, ne_eq]
        exact h a (by simp)
      rw [List.filter_cons, if_neg (by simp [ha])]
      exact ih (fun j hj => h j (List.mem_cons_of_mem a hj))

/-- C1: over every sequence of enqueue, completion, failure and
cancellation operations handled by the queue manager, the number of jobs
in the active state never exceeds MAX_CONCURRENT (2); jobs beyond the
limit wait in the pending jobQueue, never in the active state. -/
theorem active_state_bounded (es : List QEvent) :
    activeStateCount (runEvents es) ≤ MAX_CONCURRENT ∧
      ∀ j ∈ (runEvents es).jobQueue, j.state ≠ JState.active := by
  obtain ⟨h1, h2, h3⟩ := queue_inv_run es
  refine ⟨?_, h2⟩
  unfold activeStateCount
  rw [List.filter_append, List.filter_append, filter_active_nil _ h2, filter_active_nil _ h3]
  simpa using le_trans (filter_length_le _ _) h1

/-- Witness for C1: the scenario of three enqueued jobs with limit 2:
jobs 1 and 2 become active, job 3 waits in the pending queue in the
queued state. -/
theorem active_state_bounded_witness :
    activeStateCount (runEvents [QEvent.enqueue 1 3, QEvent.enqueue 2 3, QEvent.enqueue 3 3])
        ≤ MAX_CONCURRENT ∧
      (⟨3, JState.queued, 0, 3, none⟩ : QJob) ∈
        (runEvents [QEvent.enqueue 1 3, QEvent.enqueue 2 3, QEvent.enqueue 3 3]).jobQueue ∧
      (⟨3, JState.queued, 0, 3, none⟩ : QJob).state ≠ JState.active :=
  ⟨(active_state_bounded [QEvent.enqueue 1 3, QEvent.enqueue 2 3, QEvent.enqueue 3 3]).1,
    by decide,
    (active_state_bounded [QEvent.enqueue 1 3, QEvent.enqueue 2 3, QEvent.enqueue 3 3]).2
      ⟨3, JState.queued, 0, 3, none⟩ (by decide)⟩


end Vidown

namespace Vidown

/-! ## Theorems: progress estimator (C4, C5, C6) -/

theorem ratTrunc_eq_floor (q : ℚ) (h : 0 ≤ q) : ratTrunc q = ⌊q⌋ := by
  unfold ratTrunc
  rw [if_neg (not_lt.mpr h)]

theorem goRemaining_eq_max (gb gt : Int) : goRemaining gb gt = max 0 (gt - gb) := by
  unfold goRemaining
  dsimp only
  rcases lt_or_le (gt - gb) 0 with h | h
  · rw [if_pos h, max_eq_left h.le]
  · rw [if_neg (not_lt.mpr h), max_eq_right h]

theorem jsInstant_eq_spec (job : SWJob) (b t : ℚ) :
    jsInstant job b t = specInstant (b - job.bytesReceived) ((t - jsLastTick job t) / 1000) := by
  unfold jsInstant specInstant
  dsimp only
  by_cases h1 : 0 < (t - jsLastTick job t) / 1000
  · rw [if_pos h1]
    by_cases h2 : b - job.bytesReceived < 0
    · have hneg : (b - job.bytesReceived) / ((t - jsLastTick job t) / 1000) < 0 :=
        div_neg_of_neg_of_pos h2 h1
      rw [if_pos hneg, if_pos (Or.inr h2)]
    · have hnn : ¬ (b - job.bytesReceived) / ((t - jsLastTick job t) / 1000) < 0 :=
        not_lt.mpr (div_nonneg (not_lt.mp h2) h1.le)
      rw [if_neg hnn, if_neg (by push_neg; exact ⟨h1, not_lt.mp h2⟩)]
  · rw [if_neg h1, if_pos (Or.inl (not_lt.mp h1))]
    simp

theorem jsEmaNext_eq_spec (job : SWJob) (b t : ℚ) :
    jsEmaNext job b t =
      specEmaNext job.speedBytesPerSec
        (specInstant (b - job.bytesReceived) ((t - jsLastTick job t) / 1000)) := by
  unfold jsEmaNext specEmaNext
  rw [jsInstant_eq_spec]

theorem goInstSpeed_eq_spec (gj : GoJob) (gb : Int) (now : ℚ)
    (h : ¬ now - gj.lastTick < 0.5) :
    goInstSpeed gj gb now = specInstant ((gb - gj.lastBytes : Int) : ℚ) (now - gj.lastTick) := by
  have hdt : (0:ℚ) < now - gj.lastTick := lt_of_lt_of_le (by norm_num) (not_lt.mp h)
  unfold goInstSpeed specInstant
  dsimp only
  by_cases h2 : gb - gj.lastBytes < 0
  · rw [if_pos h2, if_pos (Or.inr (by exact_mod_cast h2))]
    simp
  · rw [if_neg h2, if_neg (by push_neg; exact ⟨hdt, by exact_mod_cast not_lt.mp h2⟩)]

theorem goEmaNext_eq_spec (gj : GoJob) (gb : Int) (now : ℚ)
    (h : ¬ now - gj.lastTick < 0.5) :
    goEmaNext gj gb now =
      specEmaNext (if gj.speedEMA = 0 then none else some gj.speedEMA)
        (specInstant ((gb - gj.lastBytes : Int) : ℚ) (now - gj.lastTick)) := by
  unfold goEmaNext
  rw [goInstSpeed_eq_spec gj gb now h]
  by_cases h0 : gj.speedEMA = 0
  · rw [if_pos h0, if_pos h0]
    rfl
  · rw [if_neg h0, if_neg h0]
    unfold specEmaNext
    norm_num

theorem jsEta_eq_spec (job : SWJob) (b ema : ℚ) :
    jsEta job b ema = specEta job.expectedTotalBytes b ema := by
  unfold jsEta jsRemaining specEta
  cases htot : job.expectedTotalBytes with
  | none => simp
  | some tot =>
      simp only [Option.getD_some]
      by_cases hpos : 0 < tot
      · rw [if_pos hpos]
        dsimp only
        by_cases hema : 0 < ema
        · rw [if_pos hema, if_pos ⟨hpos, hema⟩]
        · rw [if_neg hema, if_neg (by intro hc; exact hema hc.2)]
      · rw [if_neg hpos, if_neg (by intro hc; exact hpos hc.1)]

theorem ratTrunc_eval (q : ℚ) (n : Int) (h0 : 0 ≤ q) (h1 : (n:ℚ) ≤ q) (h2 : q < n + 1) :
    ratTrunc q = n := by
  rw [ratTrunc_eq_floor q h0, Int.floor_eq_iff]
  exact ⟨h1, h2⟩

theorem sendProgress_eval_three_hundred :
    sendProgress ⟨0, 0, 0⟩ 300 1000 1 = (⟨300, 300, 1⟩, some ⟨300, 1000, 300, 2, 30⟩) := by
  have hinst : goInstSpeed ⟨0, 0, 0⟩ 300 1 = 300 := by
    unfold goInstSpeed
    norm_num
  have hema : goEmaNext ⟨0, 0, 0⟩ 300 1 = 300 := by
    unfold goEmaNext
    rw [hinst]
    norm_num
  have hrem : goRemaining 300 1000 = 700 := by
    unfold goRemaining
    norm_num
  have htr : ratTrunc (300 : ℚ) = 300 := ratTrunc_eval 300 300 (by norm_num) (by norm_num) (by norm_num)
  have heta : goEtaSec 300 300 1000 = 2 := by
    unfold goEtaSec
    rw [if_pos (by norm_num), if_pos (by norm_num), hrem]
    exact ratTrunc_eval _ 2 (by norm_num) (by norm_num) (by norm_num)
  have hpct : goPercent 300 1000 = 30 := by
    unfold goPercent
    rw [if_pos (by norm_num)]
    dsimp only
    rw [ratTrunc_eval (((300:Int) : ℚ) * 100 / ((1000:Int) : ℚ)) 30 (by norm_num) (by norm_num) (by norm_num)]
    norm_num
  unfold sendProgress
  rw [if_neg (by norm_num), hema, htr, heta, hpct]

theorem sendProgress_eval_four :
    sendProgress ⟨0, 0, 0⟩ 4 14 1 = (⟨4, 4, 1⟩, some ⟨4, 14, 4, 2, 28⟩) := by
  have hinst : goInstSpeed ⟨0, 0, 0⟩ 4 1 = 4 := by
    unfold goInstSpeed
    norm_num
  have hema : goEmaNext ⟨0, 0, 0⟩ 4 1 = 4 := by
    unfold goEmaNext
    rw [hinst]
    norm_num
  have hrem : goRemaining 4 14 = 10 := by
    unfold goRemaining
    norm_num
  have htr : ratTrunc (4 : ℚ) = 4 := ratTrunc_eval 4 4 (by norm_num) (by norm_num) (by norm_num)
  have heta : goEtaSec 4 4 14 = 2 := by
    unfold goEtaSec
    rw [if_pos (by norm_num), if_pos (by norm_num), hrem]
    exact ratTrunc_eval _ 2 (by norm_num) (by norm_num) (by norm_num)
  have hpct : goPercent 4 14 = 28 := by
    unfold goPercent
    rw [if_pos (by norm_num)]
    dsimp only
    rw [ratTrunc_eval (((4:Int) : ℚ) * 100 / ((14:Int) : ℚ)) 28 (by norm_num) (by norm_num) (by norm_num)]
    norm_num
  unfold sendProgress
  rw [if_neg (by norm_num), hema, htr, heta, hpct]

theorem sendProgress_eval_unknown_total :
    sendProgress ⟨0, 0, 0⟩ 500 0 1 = (⟨500, 500, 1⟩, some ⟨500, 0, 500, 0, 0⟩) := by
  have hinst : goInstSpeed ⟨0, 0, 0⟩ 500 1 = 500 := by
    unfold goInstSpeed
    norm_num
  have hema : goEmaNext ⟨0, 0, 0⟩ 500 1 = 500 := by
    unfold goEmaNext
    rw [hinst]
    norm_num
  have htr : ratTrunc (500 : ℚ) = 500 := ratTrunc_eval 500 500 (by norm_num) (by norm_num) (by norm_num)
  have heta : goEtaSec 500 500 0 = 0 := by
    unfold goEtaSec
    rw [if_neg (by norm_num)]
  have hpct : goPercent 500 0 = 0 := by
    unfold goPercent
    rw [if_neg (by norm_num)]
  unfold sendProgress
  rw [if_neg (by norm_num), hema, htr, heta, hpct]

/-- C6: for every speed update given a prior snapshot: the extension
updateSpeedAndEta and the worker sendProgress (when it does update, that
is at least half a second after lastTick) both produce the EMA given by
the claimed rule: instantaneous speed is delta-bytes over delta-time,
treated as 0 when delta-time is non-positive or delta-bytes negative; a
set EMA is blended as 0.25 * instant + (1 - 0.25) * ema, and an unset EMA
(null in the extension, zero in the worker) takes the first instantaneous
value directly as the seed. -/
theorem speed_ema_rule (job : SWJob) (b t : ℚ) (gj : GoJob) (gb gt : Int) (now : ℚ) :
    ((updateSpeedAndEta job b t).speedBytesPerSec =
        some (specEmaNext job.speedBytesPerSec
          (specInstant (b - job.bytesReceived) ((t - jsLastTick job t) / 1000)))) ∧
      (¬ now - gj.lastTick < 0.5 →
        (sendProgress gj gb gt now).1.speedEMA =
          specEmaNext (if gj.speedEMA = 0 then none else some gj.speedEMA)
            (specInstant ((gb - gj.lastBytes : Int) : ℚ) (now - gj.lastTick))) := by
  constructor
  · show some (jsEmaNext job b t) = _
    rw [jsEmaNext_eq_spec]
  · intro h
    unfold sendProgress
    rw [if_neg h]
    exact goEmaNext_eq_spec gj gb now h

/-- Witness for C6: the specification scenario, 500000 bytes received at
one tick and 1500000 bytes one second later with an unset EMA seeds the
EMA directly with the instantaneous 1000000 bytes per second; the worker
side applied at a concrete update half a second or more after lastTick. -/
theorem speed_ema_rule_witness :
    (¬ ((1:ℚ) - 0 < 0.5)) ∧
      ((sendProgress ⟨0, 0, 0⟩ 1000000 10000000 1).1.speedEMA =
        specEmaNext (if (0:ℚ) = 0 then none else some 0)
          (specInstant ((1000000 - 0 : Int) : ℚ) (1 - 0))) ∧
      (updateSpeedAndEta ⟨500000, some 1000, none, some 10000000, none⟩ 1500000 2000).speedBytesPerSec
        = some 1000000 := by
  refine ⟨by norm_num, ?_, ?_⟩
  · exact (speed_ema_rule ⟨500000, some 1000, none, some 10000000, none⟩ 1500000 2000
      ⟨0, 0, 0⟩ 1000000 10000000 1).2 (by norm_num)
  · show some (jsEmaNext ⟨500000, some 1000, none, some 10000000, none⟩ 1500000 2000) = _
    unfold jsEmaNext jsInstant jsLastTick
    norm_num

/-- C5 counterexample: the worker sendProgress computes etaSec by
truncation, not by ceiling: with 4 of 14 bytes received and a speed EMA
of 4 bytes per second the emitted etaSec is 2, while
ceil((14 - 4) / speedEMA) = ceil(2.5) = 3. -/
theorem go_eta_truncates :
    ((sendProgress ⟨0, 0, 0⟩ 4 14 1).2.map ProgressMsg.etaSec) = some 2 ∧
      (⌈((14 - 4 : Int) : ℚ) / ((sendProgress ⟨0, 0, 0⟩ 4 14 1).1.speedEMA)⌉ : Int) = 3 ∧
      (2 : Int) ≠ 3 := by
  refine ⟨?_, ?_, by decide⟩
  · rw [sendProgress_eval_four]
    rfl
  · rw [sendProgress_eval_four]
    show (⌈((14 - 4 : Int) : ℚ) / 4⌉ : Int) = 3
    rw [show ((14 - 4 : Int) : ℚ) / 4 = 5 / 2 by norm_num]
    rw [Int.ceil_eq_iff]
    constructor <;> norm_num

/-- C5 amended: the extension updateSpeedAndEta computes etaSeconds
exactly as the claim states, ceil of the zero-clamped remaining byte
count over the new EMA when the total is known positive and the EMA
positive, null otherwise; the worker sendProgress instead rounds the same
quotient toward zero (floor, as remaining is non-negative) and emits the
numeric 0, not null, when the total or the EMA is not positive. -/
theorem eta_rule (job : SWJob) (b t : ℚ) (gj : GoJob) (gb gt : Int) (now : ℚ) :
    (∀ e, (updateSpeedAndEta job b t).speedBytesPerSec = some e →
        (updateSpeedAndEta job b t).etaSeconds = specEta job.expectedTotalBytes b e) ∧
      (∀ msg, (sendProgress gj gb gt now).2 = some msg →
        (0 < gt → 0 < goEmaNext gj gb now →
            msg.etaSec = ⌊((max 0 (gt - gb) : Int) : ℚ) / goEmaNext gj gb now⌋) ∧
        (gt ≤ 0 ∨ goEmaNext gj gb now ≤ 0 → msg.etaSec = 0)) := by
  constructor
  · intro e he
    have he2 : some (jsEmaNext job b t) = some e := he
    have he3 : jsEmaNext job b t = e := Option.some.inj he2
    subst he3
    show jsEta job b (jsEmaNext job b t) = _
    exact jsEta_eq_spec job b (jsEmaNext job b t)
  · intro msg hmsg
    by_cases hdt : now - gj.lastTick < 0.5
    · exfalso
      unfold sendProgress at hmsg
      rw [if_pos hdt] at hmsg
      cases hmsg
    · unfold sendProgress at hmsg
      rw [if_neg hdt] at hmsg
      have hmsg2 : some (⟨gb, gt, ratTrunc (goEmaNext gj gb now),
          goEtaSec (goEmaNext gj gb now) gb gt, goPercent gb gt⟩ : ProgressMsg) = some msg := hmsg
      have hm := (Option.some.inj hmsg2).symm
      subst hm
      constructor
      · intro hgt hema
        show goEtaSec (goEmaNext gj gb now) gb gt = _
        unfold goEtaSec
        rw [if_pos hgt, if_pos hema, goRemaining_eq_max]
        have hnn : (0:ℚ) ≤ ((max 0 (gt - gb) : Int) : ℚ) / goEmaNext gj gb now :=
          div_nonneg (by exact_mod_cast le_max_left 0 (gt - gb)) hema.le
        exact ratTrunc_eq_floor _ hnn
      · intro hor
        show goEtaSec (goEmaNext gj gb now) gb gt = 0
        unfold goEtaSec
        rcases hor with hgt | hema
        · rw [if_neg (not_lt.mpr hgt)]
        · by_cases hgt : 0 < gt
          · rw [if_pos hgt, if_neg (not_lt.mpr hema)]
          · rw [if_neg hgt]

/-- Witness for C5 amended: 300 of 1000 bytes at 300 bytes per second
gives etaSec floor(700 / 300) = 2 in the worker message. -/
theorem eta_rule_witness :
    0 < (1000 : Int) ∧ 0 < goEmaNext ⟨0, 0, 0⟩ 300 1 ∧
      (sendProgress ⟨0, 0, 0⟩ 300 1000 1).2 = some ⟨300, 1000, 300, 2, 30⟩ ∧
      (⟨300, 1000, 300, 2, 30⟩ : ProgressMsg).etaSec =
        ⌊((max 0 (1000 - 300) : Int) : ℚ) / goEmaNext ⟨0, 0, 0⟩ 300 1⌋ := by
  have hmsg : (sendProgress ⟨0, 0, 0⟩ 300 1000 1).2 = some ⟨300, 1000, 300, 2, 30⟩ := by
    rw [sendProgress_eval_three_hundred]
  have hema : 0 < goEmaNext ⟨0, 0, 0⟩ 300 1 := by
    unfold goEmaNext goInstSpeed
    norm_num
  exact ⟨by decide, hema, hmsg,
    ((eta_rule ⟨0, none, none, none, none⟩ 0 0 ⟨0, 0, 0⟩ 300 1000 1).2
      ⟨300, 1000, 300, 2, 30⟩ hmsg).1 (by decide) hema⟩

/-- C4 counterexample: when the total is unknown (totalBytes 0) the
worker progress message carries the numeric percent 0, not null, while
the extension fmtPercent yields null for the same inputs. -/
theorem go_percent_not_null :
    ((sendProgress ⟨0, 0, 0⟩ 500 0 1).2.map ProgressMsg.percent) = some 0 ∧
      fmtPercent 500 (some 0) = none ∧ (some (0 : Int) : Option Int) ≠ none := by
  refine ⟨?_, ?_, by decide⟩
  · rw [sendProgress_eval_unknown_total]
    rfl
  · unfold fmtPercent
    norm_num

/-- C4 amended: the extension fmtPercent equals the claimed formula,
floor(100 * bytes / total) clamped to 0..100 for a positive total and
null otherwise; the worker sendProgress percent equals the same clamped
floor whenever the total is positive and the byte count non-negative, but
is the numeric 0, not null, when the total is non-positive. -/
theorem percent_rule (bytes : ℚ) (total : Option ℚ) (gj : GoJob) (gb gt : Int) (now : ℚ) :
    fmtPercent bytes total = specPercent bytes total ∧
      (∀ msg, (sendProgress gj gb gt now).2 = some msg →
        (0 ≤ gb → 0 < gt → (some msg.percent : Option Int) = specPercent (gb : ℚ) (some (gt : ℚ))) ∧
        (gt ≤ 0 → msg.percent = 0)) := by
  constructor
  · unfold fmtPercent specPercent
    cases total with
    | none => rfl
    | some tot =>
        dsimp only
        by_cases h : tot ≤ 0
        · rw [if_pos h, if_neg (not_lt.mpr h)]
        · rw [if_neg h, if_pos (not_le.mp h)]
          rw [show bytes / tot * 100 = 100 * bytes / tot from by ring]
  · intro msg hmsg
    by_cases hdt : now - gj.lastTick < 0.5
    · exfalso
      unfold sendProgress at hmsg
      rw [if_pos hdt] at hmsg
      cases hmsg
    · unfold sendProgress at hmsg
      rw [if_neg hdt] at hmsg
      have hmsg2 : some (⟨gb, gt, ratTrunc (goEmaNext gj gb now),
          goEtaSec (goEmaNext gj gb now) gb gt, goPercent gb gt⟩ : ProgressMsg) = some msg := hmsg
      have hm := (Option.some.inj hmsg2).symm
      subst hm
      constructor
      · intro hgb hgt
        show (some (goPercent gb gt) : Option Int) = _
        unfold goPercent specPercent
        dsimp only
        rw [if_pos hgt, if_pos (show (0:ℚ) < (gt : ℚ) from by exact_mod_cast hgt)]
        have hq : (0:ℚ) ≤ (gb : ℚ) * 100 / (gt : ℚ) :=
          div_nonneg (mul_nonneg (by exact_mod_cast hgb) (by norm_num))
            (by exact_mod_cast hgt.le)
        rw [ratTrunc_eq_floor _ hq]
        have hfl : (0:Int) ≤ ⌊(gb : ℚ) * 100 / (gt : ℚ)⌋ := Int.floor_nonneg.mpr hq
        rw [show (gb : ℚ) * 100 / (gt : ℚ) = 100 * (gb : ℚ) / (gt : ℚ) from by ring] at hfl ⊢
        congr 1
        generalize ⌊100 * (gb : ℚ) / (gt : ℚ)⌋ = F at hfl ⊢
        simp only [min_def, max_def]
        split_ifs <;> omega
      · intro hle
        show goPercent gb gt = 0
        unfold goPercent
        rw [if_neg (not_lt.mpr hle)]

/-- Witness for C4 amended: 300 of 1000 bytes gives percent 30 in the
worker message, matching the claimed clamped floor. -/
theorem percent_rule_witness :
    (sendProgress ⟨0, 0, 0⟩ 300 1000 1).2 = some ⟨300, 1000, 300, 2, 30⟩ ∧
      0 ≤ (300 : Int) ∧ 0 < (1000 : Int) ∧
      (some ((⟨300, 1000, 300, 2, 30⟩ : ProgressMsg).percent) : Option Int) =
        specPercent ((300 : Int) : ℚ) (some ((1000 : Int) : ℚ)) := by
  have hmsg : (sendProgress ⟨0, 0, 0⟩ 300 1000 1).2 = some ⟨300, 1000, 300, 2, 30⟩ := by
    rw [sendProgress_eval_three_hundred]
  exact ⟨hmsg, by decide, by decide,
    ((percent_rule 0 none ⟨0, 0, 0⟩ 300 1000 1).2 ⟨300, 1000, 300, 2, 30⟩ hmsg).1
      (by decide) (by decide)⟩

end Vidown

namespace Vidown

/-! ## Theorems: terminal events (C3) -/

/-- C3 counterexample: a job cancelled while its download is in flight
emits two terminal events, not one: Manager.Cancel emits canceled, and
the job's run, whose killed ffmpeg returns an error, then also emits an
error event (Job.run never checks whether its context was cancelled). -/
theorem cancel_then_error_two_terminals :
    wRun [WAction.start 1, WAction.cancel 1, WAction.finish 1 false] =
        [WEvent.jobStarted 1, WEvent.canceled 1, WEvent.errorEvent 1] ∧
      terminalCount 1 (wRun [WAction.start 1, WAction.cancel 1, WAction.finish 1 false]) = 2 ∧
      (2 : Nat) ≠ 1 :=
  ⟨by decide, by decide, by decide⟩

/-- C3 amended: a job's terminal-event count equals its number of
run-finishes plus its number of effective cancels (cancels that hit a
registered job): every finished run emits exactly one done or error
event, so no started-and-finished job terminates silently, and every
effective cancel emits exactly one canceled event; in particular a job
cancelled while its run is in flight emits both a canceled and a
done-or-error event. -/
theorem terminal_event_count (id : Nat) (as : List WAction) : ∀ (jobs : List Nat),
    terminalCount id (wRunAux jobs as) = finishCount id as + cancelHits jobs id as := by
  induction as with
  | nil => intro jobs; rfl
  | cons a rest ih =>
      intro jobs
      show terminalCount id ((wStep jobs a).2 ++ wRunAux (wStep jobs a).1 rest) = _
      unfold terminalCount
      rw [List.filter_append, List.length_append]
      have hrec := ih (wStep jobs a).1
      unfold terminalCount at hrec
      rw [hrec]
      cases a with
      | start j =>
          have hch : cancelHits jobs id (WAction.start j :: rest) =
              0 + cancelHits (wStep jobs (WAction.start j)).1 id rest := rfl
          have hfc : finishCount id (WAction.start j :: rest) = finishCount id rest := by
            unfold finishCount
            rw [List.filter_cons]
            simp
          have hev : (List.filter (isTerminalFor id) (wStep jobs (WAction.start j)).2).length = 0 := by
            simp [wStep, isTerminalFor]
          rw [hch, hfc, hev]
          omega
      | cancel i =>
          have hch : cancelHits jobs id (WAction.cancel i :: rest) =
              (if i == id && jobs.contains i then 1 else 0) +
                cancelHits (wStep jobs (WAction.cancel i)).1 id rest := rfl
          have hfc : finishCount id (WAction.cancel i :: rest) = finishCount id rest := by
            unfold finishCount
            rw [List.filter_cons]
            simp
          have hev : (List.filter (isTerminalFor id) (wStep jobs (WAction.cancel i)).2).length =
              (if i == id && jobs.contains i then 1 else 0) := by
            unfold wStep
            dsimp only
            by_cases hc : jobs.contains i = true
            · rw [if_pos hc, hc]
              by_cases hid : (i == id) = true
              · simp [isTerminalFor, hid]
              · simp [isTerminalFor, hid]
            · have hcf : jobs.contains i = false := by
                cases h : jobs.contains i
                · rfl
                · exact absurd h hc
              rw [if_neg hc, hcf]
              simp
          rw [hch, hfc, hev]
          omega
      | finish i ok =>
          have hch : cancelHits jobs id (WAction.finish i ok :: rest) =
              0 + cancelHits (wStep jobs (WAction.finish i ok)).1 id rest := rfl
          have hfc : finishCount id (WAction.finish i ok :: rest) =
              (if i == id then 1 else 0) + finishCount id rest := by
            unfold finishCount
            rw [List.filter_cons]
            by_cases hid : (i == id) = true
            · simp [hid, Nat.add_comm]
            · simp [hid]
          have hev : (List.filter (isTerminalFor id) (wStep jobs (WAction.finish i ok)).2).length =
              (if i == id then 1 else 0) := by
            unfold wStep
            dsimp only
            cases ok with
            | true =>
                by_cases hid : (i == id) = true
                · simp [isTerminalFor, hid]
                · simp [isTerminalFor, hid]
            | false =>
                by_cases hid : (i == id) = true
                · simp [isTerminalFor, hid]
                · simp [isTerminalFor, hid]
          rw [hch, hfc, hev]
          omega
end Vidown

namespace Vidown

/-! ## Theorems: HLS ManifestEmpty and cleanup (C7, C8) -/

/-- C7 counterexample: an hls job whose media playlist parses to zero
segments does fail immediately with the ManifestEmpty error and no side
effects, but the failure is not fatal in the queue manager: handleJobError
has no fatal classification, so it consumes a retry and puts the fresh
job (retries 0, maxRetries 3) into the retrying state headed back to the
queue, not into the error state. -/
theorem manifest_empty_is_retried :
    (downloadHLS ⟨Except.ok (), Except.ok (), [], 0⟩).1 =
        Except.error "No segments found in HLS stream" ∧
      (handleJobError ⟨[], [⟨1, JState.active, 0, 3, none⟩], []⟩ 1
          "No segments found in HLS stream").activeJobs =
        [⟨1, JState.retrying, 1, 3, some "No segments found in HLS stream"⟩] ∧
      JState.retrying ≠ JState.error :=
  ⟨rfl, rfl, by decide⟩

/-- C7 amended: an hls job whose media playlist parses to zero segments
fails immediately with the ManifestEmpty error, before any segment
download or temp-directory creation; but the error is handled like every
other error: the first failure of a fresh job with the default
maxRetries 3 consumes a retry and schedules a retrying-then-requeued
cycle with a 2000 ms backoff instead of moving the job to error. -/
theorem manifest_empty_path (run : HlsRun) (h1 : run.masterFetch = Except.ok ())
    (h2 : run.mediaFetch = Except.ok ()) (h3 : run.segOk = []) :
    downloadHLS run = (Except.error "No segments found in HLS stream", initialHlsFs) ∧
      handleJobErrorStep 0 3 = (1, ErrOutcome.retry 2000) := by
  constructor
  · unfold downloadHLS
    rw [h1, h2, h3]
    rfl
  · decide

/-- Witness for C7 amended at a concrete empty-playlist run. -/
theorem manifest_empty_path_witness :
    (⟨Except.ok (), Except.ok (), [], 0⟩ : HlsRun).masterFetch = Except.ok () ∧
      (⟨Except.ok (), Except.ok (), [], 0⟩ : HlsRun).mediaFetch = Except.ok () ∧
      (⟨Except.ok (), Except.ok (), [], 0⟩ : HlsRun).segOk = [] ∧
      downloadHLS ⟨Except.ok (), Except.ok (), [], 0⟩ =
        (Except.error "No segments found in HLS stream", initialHlsFs) ∧
      handleJobErrorStep 0 3 = (1, ErrOutcome.retry 2000) :=
  ⟨rfl, rfl, rfl,
    (manifest_empty_path ⟨Except.ok (), Except.ok (), [], 0⟩ rfl rfl rfl).1,
    (manifest_empty_path ⟨Except.ok (), Except.ok (), [], 0⟩ rfl rfl rfl).2⟩

theorem segLoop_tmp (l : List Bool) : ∀ (i : Nat) (fs : HlsFs),
    (downloadSegLoop l i fs).2.tmpDirMade = fs.tmpDirMade := by
  induction l with
  | nil => intro i fs; rfl
  | cons b rest ih =>
      intro i fs
      unfold downloadSegLoop
      dsimp only
      by_cases hb : b = true
      · rw [if_pos hb]
        exact ih (i + 1) _
      · rw [if_neg hb]

theorem segLoop_keeps_nonempty (l : List Bool) : ∀ (i : Nat) (fs : HlsFs),
    fs.segFiles ≠ [] → (downloadSegLoop l i fs).2.segFiles ≠ [] := by
  induction l with
  | nil => intro i fs h; exact h
  | cons b rest ih =>
      intro i fs _
      unfold downloadSegLoop
      dsimp only
      by_cases hb : b = true
      · rw [if_pos hb]
        exact ih (i + 1) _ (by simp)
      · rw [if_neg hb]
        simp

theorem segLoop_nonempty (l : List Bool) (i : Nat) (fs : HlsFs) (h : l ≠ []) :
    (downloadSegLoop l i fs).2.segFiles ≠ [] := by
  cases l with
  | nil => exact absurd rfl h
  | cons b rest =>
      unfold downloadSegLoop
      dsimp only
      by_cases hb : b = true
      · rw [if_pos hb]
        exact segLoop_keeps_nonempty rest (i + 1) _ (by simp)
      · rw [if_neg hb]
        simp

theorem segLoop_all_ok (l : List Bool) : ∀ (i : Nat) (fs : HlsFs), (∀ b ∈ l, b = true) →
    (downloadSegLoop l i fs).1 = Except.ok () := by
  induction l with
  | nil => intro i fs _; rfl
  | cons b rest ih =>
      intro i fs hall
      unfold downloadSegLoop
      dsimp only
      rw [if_pos (hall b (by simp))]
      exact ih (i + 1) _ (fun x hx => hall x (by simp [hx]))

/-- C8 counterexample: a two-segment HLS job whose second segment
download fails exits on the error path with both segment files and the
temporary directory still present (cleanup runs only after successful
assembly), so the partial artifacts are not removed before the job
reports its error. -/
theorem hls_error_leaves_temp_files :
    downloadHLS ⟨Except.ok (), Except.ok (), [true, false], 0⟩ =
        (Except.error "segment download failed", ⟨true, [0, 1], false, false⟩) ∧
      ([0, 1] : List Nat) ≠ [] ∧ (true : Bool) ≠ false :=
  ⟨rfl, by decide, by decide⟩

/-- C8 amended: the HLS downloader removes its temporary segment files
and directory only on the success path: when every segment downloads and
ffmpeg exits 0 the run ends with the temp directory and all segment
files removed (and only the output file present); on any failing exit
after the temp directory was created, the directory and at least one
segment file are left behind (only the ffmpeg concat list file is
removed on both assembly outcomes).  The Go worker Job.run, in contrast,
does remove its .part and converted temp files on every error exit. -/
theorem cleanup_paths (run : HlsRun) (dOk : Bool) (conv : Option ConvertOpts) (cOk rOk : Bool) :
    ((∀ b ∈ run.segOk, b = true) → run.ffmpegExit = 0 → run.masterFetch = Except.ok () →
        run.mediaFetch = Except.ok () → run.segOk ≠ [] →
        downloadHLS run = (Except.ok (), ⟨false, [], false, true⟩)) ∧
      (run.masterFetch = Except.ok () → run.mediaFetch = Except.ok () → run.segOk ≠ [] →
        (downloadHLS run).1 ≠ Except.ok () →
        (downloadHLS run).2.tmpDirMade = true ∧ (downloadHLS run).2.segFiles ≠ []) ∧
      ((goRunFiles dOk conv cOk rOk).2 = false →
        (goRunFiles dOk conv cOk rOk).1.part = false ∧
          (goRunFiles dOk conv cOk rOk).1.converted = false) := by
  refine ⟨?_, ?_, ?_⟩
  · intro hall hffm hm hmed hne
    have hred : downloadHLS run =
        (match downloadSegLoop run.segOk 0 ⟨true, [], false, false⟩ with
         | (Except.error e, fs) => (Except.error e, fs)
         | (Except.ok _, fs) =>
           match concatenateSegments fs run.ffmpegExit with
           | (Except.error e, fs2) => (Except.error e, fs2)
           | (Except.ok _, fs2) => (Except.ok (), { fs2 with segFiles := [], tmpDirMade := false })) := by
      unfold downloadHLS
      rw [hm, hmed]
      rw [if_neg (by intro hc; exact hne (List.length_eq_zero.mp hc))]
      rfl
    rw [hred]
    have h1 := segLoop_all_ok run.segOk 0 ⟨true, [], false, false⟩ hall
    cases hdl : downloadSegLoop run.segOk 0 ⟨true, [], false, false⟩ with
    | mk r fs =>
        rw [hdl] at h1
        dsimp only at h1
        subst h1
        dsimp only
        unfold concatenateSegments
        rw [hffm]
        dsimp only
        rw [if_pos rfl]
  · intro hm hmed hne hnok
    have hred : downloadHLS run =
        (match downloadSegLoop run.segOk 0 ⟨true, [], false, false⟩ with
         | (Except.error e, fs) => (Except.error e, fs)
         | (Except.ok _, fs) =>
           match concatenateSegments fs run.ffmpegExit with
           | (Except.error e, fs2) => (Except.error e, fs2)
           | (Except.ok _, fs2) => (Except.ok (), { fs2 with segFiles := [], tmpDirMade := false })) := by
      unfold downloadHLS
      rw [hm, hmed]
      rw [if_neg (by intro hc; exact hne (List.length_eq_zero.mp hc))]
      rfl
    rw [hred] at hnok ⊢
    have htmp := segLoop_tmp run.segOk 0 ⟨true, [], false, false⟩
    have hsf := segLoop_nonempty run.segOk 0 ⟨true, [], false, false⟩ hne
    cases hdl : downloadSegLoop run.segOk 0 ⟨true, [], false, false⟩ with
    | mk r fs =>
        rw [hdl] at hnok htmp hsf
        dsimp only at htmp hsf
        cases r with
        | error e => exact ⟨htmp, hsf⟩
        | ok u =>
            dsimp only at hnok ⊢
            unfold concatenateSegments at hnok ⊢
            by_cases hexit : run.ffmpegExit = 0
            · rw [if_pos hexit] at hnok
              exact absurd rfl hnok
            · rw [if_neg hexit] at hnok ⊢
              exact ⟨htmp, hsf⟩
  · unfold goRunFiles
    split_ifs <;> intro _ <;> exact ⟨rfl, rfl⟩

/-- Witness for C8 amended: a successful two-segment run cleans up, and
the worker error path for a failed download leaves no temp files. -/
theorem cleanup_paths_witness :
    (∀ b ∈ ([true, true] : List Bool), b = true) ∧
      downloadHLS ⟨Except.ok (), Except.ok (), [true, true], 0⟩ =
        (Except.ok (), ⟨false, [], false, true⟩) ∧
      (goRunFiles false none true true).2 = false ∧
      (goRunFiles false none true true).1.part = false ∧
      (goRunFiles false none true true).1.converted = false := by
  have hall : ∀ b ∈ ([true, true] : List Bool), b = true := by decide
  have h1 := (cleanup_paths ⟨Except.ok (), Except.ok (), [true, true], 0⟩ false none true true).1
    hall rfl rfl rfl (by decide)
  have h3 := (cleanup_paths ⟨Except.ok (), Except.ok (), [true, true], 0⟩ false none true true).2.2
    rfl
  exact ⟨hall, h1, rfl, h3.1, h3.2⟩

end Vidown
